import Mathlib

/-!
Verification of the rare-variant forward simulator
(`src/src_simrareped/srv_batch_simrareped.py`) against its
natural-language specification.

The definitions below are shallow embeddings of the Python source:
pure functions become Lean functions, the stochastic draws are
parametrised by the values produced by the random number generator
(`u` for `randUniform`, `s` for `randGamma`), Python floats become
real numbers, and Python exceptions become `Option`/`Except` values.
-/

/-- Python's `int()` applied to a float truncates toward zero:
floor for nonnegative arguments, ceiling for negative ones. -/
noncomputable def pyTrunc (x : ℝ) : ℤ :=
  if 0 ≤ x then ⌊x⌋ else ⌈x⌉

/-! ## Demographic scheduler (`multiStageDemoFunc`, lines 926-964)

The Python closure `demoFunc` iterates over the stage index `i`,
testing `Gens[i] <= gen < Gens[i+1]`.  We embed the loop as a
structural recursion over the list of stages
`(N[i], N[i+1], G[i])`, threading the running stage start
(`Gens[i]`) and the default size `N[-1]`. -/

/-- The list of stages `(N[i], N[i+1], G[i])` for `i < len(G)`,
read off the size vector `N` and duration vector `G`. -/
def stagesOf : List ℕ → List ℕ → List (ℕ × ℕ × ℕ)
  | n0 :: n1 :: ns, g :: gs => (n0, n1, g) :: stagesOf (n1 :: ns) gs
  | _, _ => []

/-- Size returned for a generation `gen` lying inside the stage that
starts at generation `start`, has duration `Gi` and goes from size
`Ni` to size `Ni1` (lines 942-953 of the source): instant
contraction/constant stage when `N[i] >= N[i+1]`, otherwise
exponential growth truncated with `int(...)`, with the last
generation of the stage pinned to the exact end size. -/
noncomputable def stageSize (Ni Ni1 Gi start gen : ℕ) : ℤ :=
  if Ni1 ≤ Ni then (Ni1 : ℤ)
  else if gen = start + Gi - 1 then (Ni1 : ℤ)
  else pyTrunc ((Ni : ℝ) *
    Real.exp (Real.log ((Ni1 : ℝ) / (Ni : ℝ)) / (Gi : ℝ) * ((gen : ℝ) - (start : ℝ))))

/-- The `for i in range(len(G))` loop of `demoFunc`: the first stage
whose interval `[start, start + Gi)` contains `gen` determines the
size; if no interval matches the default `dflt` (`N[-1]`) is
returned. -/
noncomputable def demoLoop : List (ℕ × ℕ × ℕ) → ℕ → ℤ → ℕ → ℤ
  | [], _, dflt, _ => dflt
  | (Ni, Ni1, Gi) :: rest, start, dflt, gen =>
    if start ≤ gen ∧ gen < start + Gi then stageSize Ni Ni1 Gi start gen
    else demoLoop rest (start + Gi) dflt gen

/-- The demographic function returned by `multiStageDemoFunc` in the
single-subpopulation case (`nSP == 1`). -/
noncomputable def multiStageDemoFunc (N G : List ℕ) (gen : ℕ) : ℤ :=
  demoLoop (stagesOf N G) 0 ((N.getLastD 0 : ℕ) : ℤ) gen

/-- Apportionment of a total size over subpopulations by the split
proportions, with the rounding remainder given to the last
subpopulation (lines 959-963 of the source). -/
noncomputable def apportionSplit (sz : ℤ) (splitTo : List ℝ) : List ℤ :=
  let sz1 := splitTo.map (fun x => pyTrunc ((sz : ℝ) * x))
  sz1.dropLast ++ [sz1.getLastD 0 + (sz - sz1.sum)]

/-- The demographic function returned by `multiStageDemoFunc`,
including the split branch taken when the population has `nSP > 1`
subpopulations. -/
noncomputable def multiStageDemoFuncSplit (N G : List ℕ) (splitTo : List ℝ)
    (nSP : ℕ) (gen : ℕ) : List ℤ :=
  let sz := demoLoop (stagesOf N G) 0 ((N.getLastD 0 : ℕ) : ℤ) gen
  if nSP = 1 then [sz] else apportionSplit sz splitTo

/-! ## Selection-coefficient generators (lines 794-922)

Each Python closure consumes values from the global RNG; we pass the
draws explicitly: `u` is the value of `sim.getRNG().randUniform()`
and `s` the value of `sim.getRNG().randGamma(...)`.  The bodies of
the `while True:` loops of `mixedGamma5` and `complexMixedGamma8`
return on every path, so one pair `(u, s)` determines the result;
the truncated variants (`mixedGamma7`, `complexMixedGamma12`) reject
samples outside the truncation bounds, which we model by returning
`none` for a rejected sample (the Python loop then draws again). -/

/-- Source `mixedGamma5` (lines 794-810): parameters `[p,s,k,d,h]`, gamma
draws binned at `[selRange[0], selRange[1]]`. -/
noncomputable def mixedGamma5 (selCoef selRange : List ℝ) (u s : ℝ) : ℝ × ℝ :=
  if u < selCoef.getD 0 0 then (selCoef.getD 1 0, selCoef.getD 4 0)
  else if s < selRange.getD 0 0 then (selRange.getD 0 0, selCoef.getD 4 0)
  else if s > selRange.getD 1 0 then (selRange.getD 1 0, selCoef.getD 4 0)
  else (s, selCoef.getD 4 0)

/-- Source `mixedGamma7` (lines 813-830): parameters `[p,s,k,d,h,l,u]`,
truncated at `(l, u)`, binned at `[selRange[0], selRange[1]]`. -/
noncomputable def mixedGamma7 (selCoef selRange : List ℝ) (u s : ℝ) : Option (ℝ × ℝ) :=
  if u < selCoef.getD 0 0 then some (selCoef.getD 1 0, selCoef.getD 4 0)
  else if selCoef.getD 5 0 < s ∧ s < selCoef.getD 6 0 then
    some (if s < selRange.getD 0 0 then (selRange.getD 0 0, selCoef.getD 4 0)
      else if s > selRange.getD 1 0 then (selRange.getD 1 0, selCoef.getD 4 0)
      else (s, selCoef.getD 4 0))
  else none

/-- Source `complexMixedGamma8` (lines 833-864): parameters
`[p,s,q,k1,d1,k2,d2,h]`; the third branch negates the clipped gamma
draw. -/
noncomputable def complexMixedGamma8 (selCoef selRange : List ℝ) (u s : ℝ) : ℝ × ℝ :=
  if u < selCoef.getD 0 0 then (selCoef.getD 1 0, selCoef.getD 7 0)
  else if u < selCoef.getD 0 0 + selCoef.getD 2 0 then
    (if s < selRange.getD 0 0 then (selRange.getD 0 0, selCoef.getD 7 0)
      else if s > selRange.getD 1 0 then (selRange.getD 1 0, selCoef.getD 7 0)
      else (s, selCoef.getD 7 0))
  else
    (if s < selRange.getD 0 0 then (-(selRange.getD 0 0), selCoef.getD 7 0)
      else if s > selRange.getD 1 0 then (-(selRange.getD 1 0), selCoef.getD 7 0)
      else (-s, selCoef.getD 7 0))

/-- Source `complexMixedGamma12` (lines 867-896): parameters
`[p,s,q,k1,d1,k2,d2,h,l1,u1,l2,u2]`; per-branch truncation before
binning. -/
noncomputable def complexMixedGamma12 (selCoef selRange : List ℝ) (u s : ℝ) : Option (ℝ × ℝ) :=
  if u < selCoef.getD 0 0 then some (selCoef.getD 1 0, selCoef.getD 7 0)
  else if u < selCoef.getD 0 0 + selCoef.getD 2 0 then
    (if selCoef.getD 8 0 < s ∧ s < selCoef.getD 9 0 then
      some (if s < selRange.getD 0 0 then (selRange.getD 0 0, selCoef.getD 7 0)
        else if s > selRange.getD 1 0 then (selRange.getD 1 0, selCoef.getD 7 0)
        else (s, selCoef.getD 7 0))
      else none)
  else
    (if selCoef.getD 10 0 < s ∧ s < selCoef.getD 11 0 then
      some (if s < selRange.getD 0 0 then (-(selRange.getD 0 0), selCoef.getD 7 0)
        else if s > selRange.getD 1 0 then (-(selRange.getD 1 0), selCoef.getD 7 0)
        else (-s, selCoef.getD 7 0))
      else none)

/-- The value returned by `genSelDistFunc`: either a simuPOP builtin
descriptor (`[sim.CONSTANT] + selCoef`, `[sim.GAMMA_DISTRIBUTION] +
selCoef`) or one of the four Python closures above. -/
inductive SelDistModel where
  | constantModel (selCoef : List ℝ)
  | gammaModel (selCoef : List ℝ)
  | mixedGamma5Model (draw : ℝ → ℝ → ℝ × ℝ)
  | mixedGamma7Model (draw : ℝ → ℝ → Option (ℝ × ℝ))
  | complexMixedGamma8Model (draw : ℝ → ℝ → ℝ × ℝ)
  | complexMixedGamma12Model (draw : ℝ → ℝ → Option (ℝ × ℝ))

/-- Source `genSelDistFunc` (lines 898-922): dispatch on `len(selCoef)`,
raising `ValueError` (modelled by `Except.error`) for any other
length. -/
noncomputable def genSelDistFunc (selCoef selRange : List ℝ) : Except String SelDistModel :=
  if selCoef.length = 2 then .ok (.constantModel selCoef)
  else if selCoef.length = 3 then .ok (.gammaModel selCoef)
  else if selCoef.length = 5 then .ok (.mixedGamma5Model (mixedGamma5 selCoef selRange))
  else if selCoef.length = 7 then .ok (.mixedGamma7Model (mixedGamma7 selCoef selRange))
  else if selCoef.length = 8 then .ok (.complexMixedGamma8Model (complexMixedGamma8 selCoef selRange))
  else if selCoef.length = 12 then .ok (.complexMixedGamma12Model (complexMixedGamma12 selCoef selRange))
  else .error "Wrong input of selection coefficient distribution model or customized selection coefficient"

/-- Whether the distribution builder succeeded. -/
def selDistOk (e : Except String SelDistModel) : Bool :=
  match e with
  | .ok _ => true
  | .error _ => false

/-! ## Population state in mutational space

A haplotype is the raw simuPOP genotype list of one ploidy: integer
mutation positions with `0` filling the unused slots (see the
comment at lines 43-47 of the source).  An individual carries two
haplotypes, a sex and an affection status. -/

structure Ind where
  hap1 : List ℕ
  hap2 : List ℕ
  male : Bool
  affected : Bool
deriving DecidableEq, Repr

/-- Source `pop.genotype()`: the concatenation of all haplotypes of all
individuals. -/
def genotype (pop : List Ind) : List ℕ :=
  (pop.map (fun ind => ind.hap1 ++ ind.hap2)).flatten

/-- A mutation position that is carried on every haplotype of the
population (fully fixed). -/
def isFixed (pop : List Ind) (a : ℕ) : Prop :=
  a ≠ 0 ∧ ∀ ind ∈ pop, a ∈ ind.hap1 ∧ a ∈ ind.hap2

instance instDecidableIsFixed (pop : List Ind) (a : ℕ) : Decidable (isFixed pop a) := by
  unfold isFixed; infer_instance

/-- Revert the fixed sites of one haplotype to wildtype. -/
def revertHap (pop : List Ind) (hap : List ℕ) : List ℕ :=
  hap.map (fun a => if isFixed pop a then 0 else a)

/-- Modelled from the spec: `RevertFixedSites` / `revertFixedSites`
are imported from `simuPOP.sandbox` and are not part of this
repository; per spec §4.2, "any mutation position carried on *all*
haplotypes in the population (fully fixed) is reverted to wildtype
on every haplotype". -/
def revertFixedSites (pop : List Ind) : List Ind :=
  pop.map (fun ind =>
    { ind with hap1 := revertHap pop ind.hap1, hap2 := revertHap pop ind.hap2 })

/-- The state and variables produced by
`NumSegregationSites.countSites` (the operator mutates the
population through `revertFixedSites` and stores `numSites`,
`avgSites`, `avgFreq` in the population's variables). -/
structure SegStats where
  newPop : List Ind
  numSites : ℤ
  avgSites : ℚ
  avgFreq : ℚ
deriving Repr

/-- Source `NumSegregationSites.countSites` (lines 356-370): revert fixed
sites, then `numMutants = len(geno) - geno.count(0)`,
`numSites = len(set(geno)) - 1`, `avgSites = numMutants / popSize`,
and `avgFreq = numMutants / numSites / (2*popSize)` guarded by
`numMutants == 0`. -/
def countSitesPop (pop : List Ind) : SegStats :=
  let pop2 := revertFixedSites pop
  let geno := genotype pop2
  let numMutants : ℕ := geno.length - geno.count 0
  let nSites : ℤ := (geno.toFinset.card : ℤ) - 1
  { newPop := pop2
    numSites := nSites
    avgSites := (numMutants : ℚ) / (pop.length : ℚ)
    avgFreq := if numMutants = 0 then 0
      else (numMutants : ℚ) / (nSites : ℚ) / (2 * (pop.length : ℚ)) }

/-- The number of distinct non-wildtype mutation positions occurring
anywhere in the population (the quantity the spec says `numSites`
computes). -/
def distinctSites (pop : List Ind) : ℕ :=
  ((genotype pop).toFinset.erase 0).card

/-- Source `numSites` as a function of the concatenated genotype list alone. -/
def numSitesOfGeno (geno : List ℕ) : ℤ :=
  (geno.toFinset.card : ℤ) - 1

/-- One generation of the evolve loop (lines 1052-1194), with the
stochastic operators abstracted: `preOps` are, in source order,
`RevertFixedSites()` (present only when the `revertFixedSites`
configuration flag is on), `MutSpaceMutator`, the selector, and the
statistics operators (`NumSegregationSites`, which itself reverts
fixed sites, active only at sampling generations); mating runs
last. -/
def applyGeneration (revertFlag sampling : Bool)
    (mutate select mate : List Ind → List Ind) (pop : List Ind) : List Ind :=
  let p1 := if revertFlag then revertFixedSites pop else pop
  let p2 := select (mutate p1)
  let p3 := if sampling then (countSitesPop p2).newPop else p2
  mate p3

/-! ## Per-replicate export (lines 637-760) -/

/-- The marker list produced by `saveMarkerInfoToFile` for a single
region: all distinct genotype values, sorted ascending, with the
fake allele `0` dropped from the front (`mutants.sort(); if
mutants[0] == 0: mutants = mutants[1:]`). -/
def allMutantsOf (pop : List Ind) : List ℕ :=
  match (genotype pop).toFinset.sort (· ≤ ·) with
  | 0 :: rest => rest
  | l => l

/-- The distinct non-wildtype positions in order of first observation
while traversing the concatenated genotype (the ordering the spec
asserts for the `.ped` marker columns). -/
def firstObservedMutants (pop : List Ind) : List ℕ :=
  ((genotype pop).filter (fun a => a != 0)).dedup

/-- Source `sexCode = {sim.MALE: 1, sim.FEMALE: 2}`. -/
def sexCode (ind : Ind) : ℕ := if ind.male then 1 else 2

/-- Source `affCode = {False: 1, True: 2}`. -/
def affCode (ind : Ind) : ℕ := if ind.affected then 2 else 1

/-- The genotype bit block of one individual in
`saveGenotypeToFile` (lines 739-752): a zero block of length
`2 * len(markerPos)`; each mutant `m` of the first ploidy, up to the
first `0` (the `break`), sets slot `2*markerPos[m]`, each mutant of
the second ploidy sets slot `2*markerPos[m]+1`. -/
def genoBits (markers : List ℕ) (ind : Ind) : List ℕ :=
  let g0 := List.replicate (2 * markers.length) 0
  let g1 := (ind.hap1.takeWhile (fun a => a != 0)).foldl
    (fun g m => g.set (2 * markers.indexOf m) 1) g0
  (ind.hap2.takeWhile (fun a => a != 0)).foldl
    (fun g m => g.set (2 * markers.indexOf m + 1) 1) g1

/-- One line of the `.ped` file, as its list of numeric fields:
`'%s 0 0 0 %d %d' % (cnt + 1, sexCode[ind.sex()],
affCode[ind.affected()])` followed by the genotype bits. -/
def pedLine (cnt : ℕ) (markers : List ℕ) (ind : Ind) : List ℕ :=
  [cnt + 1, 0, 0, 0, sexCode ind, affCode ind] ++ genoBits markers ind

/-- The rows written by `saveGenotypeToFile` for a single-region
population, using the marker list of `saveMarkerInfoToFile`. -/
def savedPedRows (pop : List Ind) : List (List ℕ) :=
  pop.mapIdx (fun cnt ind => pedLine cnt (allMutantsOf pop) ind)

/-- A haplotype respects the mutational-space representation
invariant (lines 43-47): zeros only fill the tail, so no mutation
follows a `0` slot. -/
def compactHap (hap : List ℕ) : Prop :=
  ∀ a ∈ hap.dropWhile (fun x => x != 0), a = 0

instance instDecidableCompactHap (hap : List ℕ) : Decidable (compactHap hap) := by
  unfold compactHap; infer_instance

/-! ## Variant-pool conversion (`convertGenosToListOf2Haps`,
lines 1333-1356) -/

/-- Row of one ploidy extracted from a `.ped` genotype row:
`[geno[i*2+off] for i in range(lenHap)]`. -/
def hapRow (geno : List ℕ) (lenHap off : ℕ) : List ℕ :=
  (List.range lenHap).map (fun i => geno.getD (2 * i + off) 0)

/-- The `haps` list: two rows per genotype row, in order. -/
def hapsOf (genos : List (List ℕ)) (lenHap : ℕ) : List (List ℕ) :=
  genos.foldr (fun g acc => hapRow g lenHap 0 :: hapRow g lenHap 1 :: acc) []

/-- The column loop `for idx, f in enumerate(vaf): ...` applied to
one row: entries of columns whose variant allele frequency exceeds
`0.5` are swapped `0 <-> 1`, everything else is unchanged. -/
def swapRare (vaf : List ℚ) (row : List ℕ) : List ℕ :=
  (List.range row.length).map (fun idx =>
    if 1/2 < vaf.getD idx 0 then
      (if row.getD idx 0 = 0 then 1
        else if row.getD idx 0 = 1 then 0
        else row.getD idx 0)
    else row.getD idx 0)

/-- Source `convertGenosToListOf2Haps`: `lenHap = len(genos[0])/2` (an
`IndexError`, modelled by `none`, when `genos` is empty), split each
row into its two ploidies, then swap the common-variant columns. -/
def convertGenosToListOf2Haps (genos : List (List ℕ)) (vaf : List ℚ) :
    Option (List (List ℕ)) :=
  match genos with
  | [] => none
  | g0 :: _ => some ((hapsOf genos (g0.length / 2)).map (swapRare vaf))

/-- The entry transform the claim describes: swap `0 <-> 1` exactly in
columns whose variant allele frequency exceeds `0.5`. -/
def swapEntry (f : ℚ) (x : ℕ) : ℕ :=
  if 1/2 < f then (if x = 0 then 1 else if x = 1 then 0 else x) else x

/-- Duration sum of a prefix of the stage list. -/
def durSum (ss : List (ℕ × ℕ × ℕ)) : ℕ := (ss.map (fun s => s.2.2)).sum

theorem durSum_nil : durSum [] = 0 := rfl

theorem durSum_cons (s : ℕ × ℕ × ℕ) (ss : List (ℕ × ℕ × ℕ)) :
    durSum (s :: ss) = s.2.2 + durSum ss := by
  simp [durSum]

theorem durSum_cons3 (a b c : ℕ) (ss : List (ℕ × ℕ × ℕ)) :
    durSum ((a, b, c) :: ss) = c + durSum ss := by
  simp [durSum]

/-- If `gen` is beyond the total duration of the remaining stages, the
loop falls through to the default size. -/
theorem demoLoop_default (ss : List (ℕ × ℕ × ℕ)) (start : ℕ) (dflt : ℤ) (gen : ℕ)
    (h : start + durSum ss ≤ gen) : demoLoop ss start dflt gen = dflt := by
  induction ss generalizing start with
  | nil => rfl
  | cons s rest ih =>
    obtain ⟨Ni, Ni1, Gi⟩ := s
    rw [durSum_cons3] at h
    rw [demoLoop, if_neg, ih (start + Gi) (by omega)]
    rintro ⟨-, h2⟩
    omega

/-- The loop locates the stage whose half-open interval contains
`gen` and returns its `stageSize`. -/
theorem demoLoop_stage (ss : List (ℕ × ℕ × ℕ)) (start : ℕ) (dflt : ℤ) (gen i : ℕ)
    (hi : i < ss.length)
    (h1 : start + durSum (ss.take i) ≤ gen)
    (h2 : gen < start + durSum (ss.take (i + 1))) :
    demoLoop ss start dflt gen =
      stageSize (ss.getD i (0, 0, 0)).1 (ss.getD i (0, 0, 0)).2.1 (ss.getD i (0, 0, 0)).2.2
        (start + durSum (ss.take i)) gen := by
  induction ss generalizing start i with
  | nil => exact absurd hi (by simp)
  | cons s rest ih =>
    obtain ⟨Ni, Ni1, Gi⟩ := s
    cases i with
    | zero =>
      simp only [List.take_zero, durSum_nil, Nat.add_zero] at h1 ⊢
      rw [List.take_succ_cons, List.take_zero, durSum_cons3, durSum_nil] at h2
      rw [demoLoop, if_pos ⟨h1, by omega⟩]
      rfl
    | succ j =>
      rw [List.take_succ_cons, durSum_cons3] at h1 h2 ⊢
      rw [demoLoop, if_neg (by rintro ⟨-, hlt⟩; omega), List.getD_cons_succ]
      have := ih (start + Gi) j (by simpa using hi) (by omega) (by omega)
      simpa [Nat.add_assoc] using this

/-- Source `durSum` of a prefix of the stage list equals the sum of the
corresponding prefix of the duration vector `G`. -/
theorem durSum_take_stagesOf (N G : List ℕ) (hlen : N.length = G.length + 1) :
    ∀ i, durSum ((stagesOf N G).take i) = (G.take i).sum := by
  induction G generalizing N with
  | nil => intro i; cases N <;> simp [stagesOf, durSum]
  | cons g gs ih =>
    intro i
    match N, hlen with
    | n0 :: n1 :: ns, hlen =>
      cases i with
      | zero => simp [durSum]
      | succ j =>
        rw [stagesOf, List.take_succ_cons, durSum_cons, List.take_succ_cons, List.sum_cons,
          ih (n1 :: ns) (by simpa using hlen) j]

/-- The stage list has one entry per duration. -/
theorem stagesOf_length (N G : List ℕ) (hlen : N.length = G.length + 1) :
    (stagesOf N G).length = G.length := by
  induction G generalizing N with
  | nil => cases N <;> simp_all [stagesOf]
  | cons g gs ih =>
    match N, hlen with
    | n0 :: n1 :: ns, hlen =>
      simpa [stagesOf] using ih (n1 :: ns) (by simpa using hlen)

/-- The `i`-th stage is `(N[i], N[i+1], G[i])`. -/
theorem stagesOf_getD (N G : List ℕ) (hlen : N.length = G.length + 1) :
    ∀ i, i < G.length →
      (stagesOf N G).getD i (0, 0, 0) = (N.getD i 0, N.getD (i + 1) 0, G.getD i 0) := by
  induction G generalizing N with
  | nil => simp
  | cons g gs ih =>
    intro i hi
    match N, hlen with
    | n0 :: n1 :: ns, hlen =>
      cases i with
      | zero => simp [stagesOf]
      | succ j =>
        have := ih (n1 :: ns) (by simpa using hlen) j (by simpa using hi)
        simpa [stagesOf] using this

/-- The total duration covered by the stage list is the sum of `G`. -/
theorem durSum_stagesOf (N G : List ℕ) (hlen : N.length = G.length + 1) :
    durSum (stagesOf N G) = G.sum := by
  have h := durSum_take_stagesOf N G hlen G.length
  rwa [List.take_of_length_le (le_of_eq (stagesOf_length N G hlen)),
    List.take_of_length_le (le_refl G.length)] at h

/-- Claim C1 — counterexample.  The claim asserts that for the schedule
`N = [5000, 5000, 800, 30000]`, `G = [1000, 479, 141]` the size at
generation 1479 is exactly 30000.  Generation 1479 is the *first*
generation of the final growth stage (`Gens = [0, 1000, 1479, 1620]`),
so the code returns `int(800 * exp(r*0)) = 800`, not 30000. -/
theorem C1_counterexample :
    multiStageDemoFunc [5000, 5000, 800, 30000] [1000, 479, 141] 1479 ≠ 30000 := by
  norm_num [multiStageDemoFunc, demoLoop, stagesOf, stageSize, pyTrunc]

/-- Claim C1 — amended.  For the demographic function built from
`N = [5000, 5000, 800, 30000]`, `G = [1000, 479, 141]` (stage
boundaries 0, 1000, 1479, 1620): the size at generation 0 is 5000, at
999 it is 5000, at 1000 it is 800, at 1478 it is 800, at 1479 (the
first generation of the growth stage) it is 800, at 1619 (the *last*
generation of the final growth stage) it is exactly 30000, and at
every generation of the growth stage except the last it follows the
exponential formula, truncated to an integer. -/
theorem C1_amended_demoSchedule :
    multiStageDemoFunc [5000, 5000, 800, 30000] [1000, 479, 141] 0 = 5000 ∧
    multiStageDemoFunc [5000, 5000, 800, 30000] [1000, 479, 141] 999 = 5000 ∧
    multiStageDemoFunc [5000, 5000, 800, 30000] [1000, 479, 141] 1000 = 800 ∧
    multiStageDemoFunc [5000, 5000, 800, 30000] [1000, 479, 141] 1478 = 800 ∧
    multiStageDemoFunc [5000, 5000, 800, 30000] [1000, 479, 141] 1479 = 800 ∧
    multiStageDemoFunc [5000, 5000, 800, 30000] [1000, 479, 141] 1619 = 30000 ∧
    ∀ g : ℕ, 1479 ≤ g → g < 1619 →
      multiStageDemoFunc [5000, 5000, 800, 30000] [1000, 479, 141] g =
        pyTrunc ((800 : ℝ) *
          Real.exp (Real.log ((30000 : ℝ) / 800) / 141 * ((g : ℝ) - 1479))) := by
  refine ⟨?_, ?_, ?_, ?_, ?_, ?_, ?_⟩
  · norm_num [multiStageDemoFunc, demoLoop, stagesOf, stageSize]
  · norm_num [multiStageDemoFunc, demoLoop, stagesOf, stageSize]
  · norm_num [multiStageDemoFunc, demoLoop, stagesOf, stageSize]
  · norm_num [multiStageDemoFunc, demoLoop, stagesOf, stageSize]
  · norm_num [multiStageDemoFunc, demoLoop, stagesOf, stageSize, pyTrunc]
  · norm_num [multiStageDemoFunc, demoLoop, stagesOf, stageSize]
  · intro g h1 h2
    simp only [multiStageDemoFunc, stagesOf, demoLoop, stageSize]
    rw [if_neg (by omega), if_neg (by omega), if_pos ⟨by omega, by omega⟩,
      if_neg (by norm_num), if_neg (by omega)]
    norm_num

/-- Claim C1 — witness for the universally quantified conjunct of
`C1_amended_demoSchedule`, instantiated at generation 1500. -/
theorem C1_witness :
    multiStageDemoFunc [5000, 5000, 800, 30000] [1000, 479, 141] 1500 =
      pyTrunc ((800 : ℝ) *
        Real.exp (Real.log ((30000 : ℝ) / 800) / 141 * ((1500 : ℝ) - 1479))) := by
  have h := C1_amended_demoSchedule.2.2.2.2.2.2 1500 (by norm_num) (by norm_num)
  simpa using h

/-- Claim C2 — counterexample.  The claim says a growth-stage generation
other than the last returns `round(start * exp(r*(gen - stageStart)))`.
The code truncates with `int(...)` instead of rounding: for
`N = [2, 4]`, `G = [4]` at generation 2 the exponential formula gives
`2*sqrt(2) = 2.828...`, whose rounding is 3, but the code returns 2. -/
theorem C2_counterexample :
    multiStageDemoFunc [2, 4] [4] 2 ≠
      round ((2 : ℝ) * Real.exp (Real.log ((4 : ℝ) / 2) / 4 * ((2 : ℝ) - 0))) := by
  have hy : (Real.exp (Real.log (2 : ℝ) / 4 * 2)) ^ 2 = 2 := by
    rw [← Real.exp_nat_mul,
      show ((2 : ℕ) : ℝ) * (Real.log 2 / 4 * 2) = Real.log 2 by push_cast; ring]
    exact Real.exp_log (by norm_num)
  have hypos : (0 : ℝ) < Real.exp (Real.log (2 : ℝ) / 4 * 2) := Real.exp_pos _
  set y := Real.exp (Real.log (2 : ℝ) / 4 * 2) with hydef
  have hlb : (1.25 : ℝ) < y := by nlinarith
  have hub : y < 1.5 := by nlinarith
  have hL : multiStageDemoFunc [2, 4] [4] 2 = 2 := by
    norm_num [multiStageDemoFunc, demoLoop, stagesOf, stageSize, pyTrunc, ← hydef]
    rw [if_pos (by positivity), Int.floor_eq_iff]
    constructor <;> push_cast <;> nlinarith
  have hR : round ((2 : ℝ) * Real.exp (Real.log ((4 : ℝ) / 2) / 4 * ((2 : ℝ) - 0))) = 3 := by
    rw [show Real.log ((4 : ℝ) / 2) / 4 * ((2 : ℝ) - 0) = Real.log 2 / 4 * 2 by norm_num,
      ← hydef, round_eq, Int.floor_eq_iff]
    constructor <;> push_cast <;> nlinarith
  rw [hL, hR]
  norm_num

/-- Claim C2 — amended.  For every stage `i` of a valid demographic
schedule (`len(N) = len(G) + 1`) and every generation inside that
stage: when `N[i] >= N[i+1]` the function returns `N[i+1]` for every
generation of the stage; when `N[i] < N[i+1]` it returns the exact
end size at the last generation of the stage and otherwise
`int(N[i] * exp(r*(gen - stageStart)))` — truncation toward zero, not
rounding — with `r = ln(N[i+1]/N[i]) / G[i]`. -/
theorem C2_amended_stageFormula (N G : List ℕ) (hlen : N.length = G.length + 1)
    (i gen : ℕ) (hi : i < G.length)
    (h1 : (G.take i).sum ≤ gen) (h2 : gen < (G.take (i + 1)).sum) :
    multiStageDemoFunc N G gen =
      if N.getD (i + 1) 0 ≤ N.getD i 0 then (N.getD (i + 1) 0 : ℤ)
      else if gen = (G.take (i + 1)).sum - 1 then (N.getD (i + 1) 0 : ℤ)
      else pyTrunc ((N.getD i 0 : ℝ) *
        Real.exp (Real.log ((N.getD (i + 1) 0 : ℝ) / (N.getD i 0 : ℝ)) / (G.getD i 0 : ℝ) *
          ((gen : ℝ) - (((G.take i).sum : ℕ) : ℝ)))) := by
  have hslen : (stagesOf N G).length = G.length := stagesOf_length N G hlen
  have hi' : i < (stagesOf N G).length := by omega
  have hget : (stagesOf N G).getD i (0, 0, 0) = (N.getD i 0, N.getD (i + 1) 0, G.getD i 0) :=
    stagesOf_getD N G hlen i hi
  have hd1 : durSum ((stagesOf N G).take i) = (G.take i).sum :=
    durSum_take_stagesOf N G hlen i
  have hd2 : durSum ((stagesOf N G).take (i + 1)) = (G.take (i + 1)).sum :=
    durSum_take_stagesOf N G hlen (i + 1)
  have key := demoLoop_stage (stagesOf N G) 0 ((N.getLastD 0 : ℕ) : ℤ) gen i hi'
    (by omega) (by omega)
  rw [multiStageDemoFunc, key, hget]
  have hsum : (G.take (i + 1)).sum = (G.take i).sum + G.getD i 0 := by
    rw [List.sum_take_succ G i hi, List.getD_eq_getElem G 0 hi]
  dsimp only
  rw [hd1, Nat.zero_add, hsum]
  rfl

/-- Claim C2 — witness: the theorem instantiated at the bottleneck stage
(`i = 1`) of the Gazave et al. schedule, generation 1200. -/
theorem C2_witness :
    multiStageDemoFunc [5000, 5000, 800, 30000] [1000, 479, 141] 1200 = 800 := by
  have h := C2_amended_stageFormula [5000, 5000, 800, 30000] [1000, 479, 141]
    (by norm_num) 1 1200 (by norm_num) (by norm_num) (by norm_num)
  simpa using h

/-- Claim C9 — confirmed.  For every generation at or beyond the total
number of generations `sum(G)`, no stage interval matches, so the
demographic function falls through to its default `sz = N[-1]` and
returns the final target size — or, when the population has been
split into `nSP > 1` subpopulations, its split apportionment. -/
theorem C9_defaultBeyondSchedule (N G : List ℕ) (hlen : N.length = G.length + 1)
    (hN : N ≠ []) (splitTo : List ℝ) (nSP gen : ℕ) (hgen : G.sum ≤ gen) :
    multiStageDemoFunc N G gen = ((N.getLast hN : ℕ) : ℤ) ∧
    multiStageDemoFuncSplit N G splitTo nSP gen =
      (if nSP = 1 then [((N.getLast hN : ℕ) : ℤ)]
        else apportionSplit ((N.getLast hN : ℕ) : ℤ) splitTo) := by
  have hdflt : N.getLastD 0 = N.getLast hN := by
    cases N with
    | nil => exact absurd rfl hN
    | cons a l => simp [List.getLastD_eq_getLast?, List.getLast?_eq_getLast]
  have hloop : demoLoop (stagesOf N G) 0 ((N.getLast hN : ℕ) : ℤ) gen =
      ((N.getLast hN : ℕ) : ℤ) := by
    apply demoLoop_default
    rw [durSum_stagesOf N G hlen]
    omega
  refine ⟨?_, ?_⟩
  · rw [multiStageDemoFunc, hdflt, hloop]
  · rw [multiStageDemoFuncSplit]
    simp only [hdflt, hloop]

/-- Claim C9 — witness: generation 1700 lies beyond the 1620 simulated
generations, so the default size 30000 applies. -/
theorem C9_witness :
    multiStageDemoFunc [5000, 5000, 800, 30000] [1000, 479, 141] 1700 = 30000 := by
  have h := (C9_defaultBeyondSchedule [5000, 5000, 800, 30000] [1000, 479, 141]
    (by norm_num) (by simp) [] 1 1700 (by norm_num)).1
  simpa using h

/-- Claim C3 — counterexample.  The claim asserts that *every* draw from
a clipped family has magnitude within `[selRange.lo, selRange.hi]`.
The constant point-mass branch of `mixedGamma5` bypasses clipping: for
the default Kyrukov parameters `[0.37, 0.0, 0.562341, 0.01, 0.5]` with
`selRange = [0.00001, 0.1]`, a uniform draw `u = 0.1 < p = 0.37`
returns `s = 0.0`, whose magnitude is below `selRange.lo`. -/
theorem C3_counterexample :
    ¬ ((0.00001 : ℝ) ≤
      |(mixedGamma5 [0.37, 0, 0.562341, 0.01, 0.5] [0.00001, 0.1] 0.1 1).1|) := by
  norm_num [mixedGamma5]

/-- Claim C3 — amended.  Every draw resolved through a *gamma* branch of
a clipped family (`u ≥ p`, so the unclipped point-mass branch is not
taken; gamma samples are positive; `0 < selRange.lo ≤ selRange.hi`)
has magnitude in `[selRange.lo, selRange.hi]`, and clipping preserves
the sign: the positive-gamma branches of all four families return
positive values, and the negated-gamma branches of
`complexMixedGamma8` and `complexMixedGamma12` return negative
values. -/
theorem C3_amended_clipBounds (sc : List ℝ) (lo hi u s : ℝ)
    (hlo : 0 < lo) (hlh : lo ≤ hi) (hs : 0 < s) (hu : sc.getD 0 0 ≤ u) :
    (lo ≤ |(mixedGamma5 sc [lo, hi] u s).1| ∧ |(mixedGamma5 sc [lo, hi] u s).1| ≤ hi ∧
      0 < (mixedGamma5 sc [lo, hi] u s).1) ∧
    (∀ r : ℝ × ℝ, mixedGamma7 sc [lo, hi] u s = some r →
      lo ≤ |r.1| ∧ |r.1| ≤ hi ∧ 0 < r.1) ∧
    (u < sc.getD 0 0 + sc.getD 2 0 →
      lo ≤ |(complexMixedGamma8 sc [lo, hi] u s).1| ∧
      |(complexMixedGamma8 sc [lo, hi] u s).1| ≤ hi ∧
      0 < (complexMixedGamma8 sc [lo, hi] u s).1) ∧
    (sc.getD 0 0 + sc.getD 2 0 ≤ u →
      lo ≤ |(complexMixedGamma8 sc [lo, hi] u s).1| ∧
      |(complexMixedGamma8 sc [lo, hi] u s).1| ≤ hi ∧
      (complexMixedGamma8 sc [lo, hi] u s).1 < 0) ∧
    (∀ r : ℝ × ℝ, complexMixedGamma12 sc [lo, hi] u s = some r →
      lo ≤ |r.1| ∧ |r.1| ≤ hi) ∧
    (∀ r : ℝ × ℝ, u < sc.getD 0 0 + sc.getD 2 0 →
      complexMixedGamma12 sc [lo, hi] u s = some r →
      lo ≤ |r.1| ∧ |r.1| ≤ hi ∧ 0 < r.1) ∧
    (∀ r : ℝ × ℝ, sc.getD 0 0 + sc.getD 2 0 ≤ u →
      complexMixedGamma12 sc [lo, hi] u s = some r →
      lo ≤ |r.1| ∧ |r.1| ≤ hi ∧ r.1 < 0) := by
  have habs : ∀ x : ℝ, lo ≤ x → x ≤ hi → lo ≤ |x| ∧ |x| ≤ hi ∧ 0 < x := by
    intro x h1 h2
    have hx : 0 < x := lt_of_lt_of_le hlo h1
    rw [abs_of_pos hx]
    exact ⟨h1, h2, hx⟩
  have hnabs : ∀ x : ℝ, lo ≤ x → x ≤ hi → lo ≤ |(-x)| ∧ |(-x)| ≤ hi ∧ -x < 0 := by
    intro x h1 h2
    have hx : 0 < x := lt_of_lt_of_le hlo h1
    rw [abs_neg, abs_of_pos hx]
    exact ⟨h1, h2, by linarith⟩
  have hu' : ¬ (u < sc.getD 0 0) := not_lt.2 hu
  refine ⟨?_, ?_, ?_, ?_, ?_, ?_, ?_⟩
  · simp only [mixedGamma5, hu', if_false, List.getD_cons_zero, List.getD_cons_succ]
    split_ifs with hA hB
    · exact habs lo le_rfl hlh
    · exact habs hi hlh le_rfl
    · exact habs s (by linarith [not_lt.1 hA]) (by linarith [not_lt.1 hB])
  · intro r hr
    simp only [mixedGamma7, hu', if_false, List.getD_cons_zero, List.getD_cons_succ] at hr
    split_ifs at hr with hT hA hB
    · injection hr with hr'
      subst hr'
      exact habs lo le_rfl hlh
    · injection hr with hr'
      subst hr'
      exact habs hi hlh le_rfl
    · injection hr with hr'
      subst hr'
      exact habs s (by linarith [not_lt.1 hA]) (by linarith [not_lt.1 hB])
  · intro hq
    simp only [complexMixedGamma8, hu', if_false, if_pos hq,
      List.getD_cons_zero, List.getD_cons_succ]
    split_ifs with hA hB
    · exact habs lo le_rfl hlh
    · exact habs hi hlh le_rfl
    · exact habs s (by linarith [not_lt.1 hA]) (by linarith [not_lt.1 hB])
  · intro hq
    simp only [complexMixedGamma8, hu', if_false, if_neg (not_lt.2 hq),
      List.getD_cons_zero, List.getD_cons_succ]
    split_ifs with hA hB
    · exact hnabs lo le_rfl hlh
    · exact hnabs hi hlh le_rfl
    · exact hnabs s (by linarith [not_lt.1 hA]) (by linarith [not_lt.1 hB])
  · intro r hr
    simp only [complexMixedGamma12, hu', if_false,
      List.getD_cons_zero, List.getD_cons_succ] at hr
    split_ifs at hr with hq hT hA hB hT2 hA2 hB2
    · injection hr with hr'
      subst hr'
      exact ⟨(habs lo le_rfl hlh).1, (habs lo le_rfl hlh).2.1⟩
    · injection hr with hr'
      subst hr'
      exact ⟨(habs hi hlh le_rfl).1, (habs hi hlh le_rfl).2.1⟩
    · injection hr with hr'
      subst hr'
      exact ⟨(habs s (not_lt.1 hA) (not_lt.1 hB)).1,
        (habs s (not_lt.1 hA) (not_lt.1 hB)).2.1⟩
    · injection hr with hr'
      subst hr'
      exact ⟨(hnabs lo le_rfl hlh).1, (hnabs lo le_rfl hlh).2.1⟩
    · injection hr with hr'
      subst hr'
      exact ⟨(hnabs hi hlh le_rfl).1, (hnabs hi hlh le_rfl).2.1⟩
    · injection hr with hr'
      subst hr'
      exact ⟨(hnabs s (not_lt.1 hA2) (not_lt.1 hB2)).1,
        (hnabs s (not_lt.1 hA2) (not_lt.1 hB2)).2.1⟩
  · intro r hq hr
    simp only [complexMixedGamma12, hu', if_false, if_pos hq,
      List.getD_cons_zero, List.getD_cons_succ] at hr
    split_ifs at hr with hT hA hB
    · injection hr with hr'
      subst hr'
      exact habs lo le_rfl hlh
    · injection hr with hr'
      subst hr'
      exact habs hi hlh le_rfl
    · injection hr with hr'
      subst hr'
      exact habs s (not_lt.1 hA) (not_lt.1 hB)
  · intro r hq hr
    simp only [complexMixedGamma12, hu', if_false, if_neg (not_lt.2 hq),
      List.getD_cons_zero, List.getD_cons_succ] at hr
    split_ifs at hr with hT hA hB
    · injection hr with hr'
      subst hr'
      exact hnabs lo le_rfl hlh
    · injection hr with hr'
      subst hr'
      exact hnabs hi hlh le_rfl
    · injection hr with hr'
      subst hr'
      exact hnabs s (not_lt.1 hA) (not_lt.1 hB)

/-- Claim C3 — witness: the gamma branch of `mixedGamma5` with the
default Kyrukov parameters, `selRange = [0.00001, 0.1]`, `u = 0.5`,
`s = 0.05`. -/
theorem C3_witness :
    (0.00001 : ℝ) ≤ |(mixedGamma5 [0.37, 0, 0.562341, 0.01, 0.5] [0.00001, 0.1] 0.5 0.05).1| ∧
    |(mixedGamma5 [0.37, 0, 0.562341, 0.01, 0.5] [0.00001, 0.1] 0.5 0.05).1| ≤ 0.1 ∧
    0 < (mixedGamma5 [0.37, 0, 0.562341, 0.01, 0.5] [0.00001, 0.1] 0.5 0.05).1 :=
  (C3_amended_clipBounds [0.37, 0, 0.562341, 0.01, 0.5] 0.00001 0.1 0.5 0.05
    (by norm_num) (by norm_num) (by norm_num) (by norm_num)).1

/-- Claim C7 — confirmed.  `genSelDistFunc` succeeds exactly for
parameter vectors of length 2, 3, 5, 7, 8 or 12, returning the
corresponding family's generator, and raises a `ValueError`
(modelled as `Except.error`) for every other length.  In
`simuRareVariants` the builder is invoked while constructing the
selection operator (lines 1023-1027), before `pop.evolve` runs any
generation, so the failure precedes all simulation state. -/
theorem C7_selDistDispatch :
    (∀ selCoef selRange : List ℝ,
      selDistOk (genSelDistFunc selCoef selRange) = true ↔
        (selCoef.length = 2 ∨ selCoef.length = 3 ∨ selCoef.length = 5 ∨
          selCoef.length = 7 ∨ selCoef.length = 8 ∨ selCoef.length = 12)) ∧
    (∀ (a b : ℝ) (sr : List ℝ),
      genSelDistFunc [a, b] sr = .ok (.constantModel [a, b])) ∧
    (∀ (a b c : ℝ) (sr : List ℝ),
      genSelDistFunc [a, b, c] sr = .ok (.gammaModel [a, b, c])) ∧
    (∀ (a b c d e : ℝ) (sr : List ℝ),
      genSelDistFunc [a, b, c, d, e] sr =
        .ok (.mixedGamma5Model (mixedGamma5 [a, b, c, d, e] sr))) ∧
    (∀ (a b c d e f g : ℝ) (sr : List ℝ),
      genSelDistFunc [a, b, c, d, e, f, g] sr =
        .ok (.mixedGamma7Model (mixedGamma7 [a, b, c, d, e, f, g] sr))) ∧
    (∀ (a b c d e f g h : ℝ) (sr : List ℝ),
      genSelDistFunc [a, b, c, d, e, f, g, h] sr =
        .ok (.complexMixedGamma8Model (complexMixedGamma8 [a, b, c, d, e, f, g, h] sr))) ∧
    (∀ (a b c d e f g h x1 x2 x3 x4 : ℝ) (sr : List ℝ),
      genSelDistFunc [a, b, c, d, e, f, g, h, x1, x2, x3, x4] sr =
        .ok (.complexMixedGamma12Model
          (complexMixedGamma12 [a, b, c, d, e, f, g, h, x1, x2, x3, x4] sr))) := by
  refine ⟨?_, ?_, ?_, ?_, ?_, ?_, ?_⟩
  · intro selCoef selRange
    unfold genSelDistFunc
    split_ifs <;> simp_all [selDistOk]
  all_goals (intros; simp [genSelDistFunc])

/-- Membership in the concatenated genotype. -/
theorem mem_genotype (pop : List Ind) (a : ℕ) :
    a ∈ genotype pop ↔ ∃ ind ∈ pop, a ∈ ind.hap1 ∨ a ∈ ind.hap2 := by
  simp only [genotype, List.mem_flatten, List.mem_map]
  constructor
  · rintro ⟨l, ⟨ind, hind, rfl⟩, hal⟩
    exact ⟨ind, hind, by simpa using hal⟩
  · rintro ⟨ind, hind, h⟩
    exact ⟨ind.hap1 ++ ind.hap2, ⟨ind, hind, rfl⟩, by simpa using h⟩

/-- Source `len(geno) - geno.count(0)` counts the non-wildtype entries. -/
theorem length_sub_count_eq_countP (l : List ℕ) :
    l.length - l.count 0 = l.countP (fun a => a != 0) := by
  induction l with
  | nil => rfl
  | cons a t ih =>
    have hle : t.count 0 ≤ t.length := List.count_le_length 0 t
    by_cases h : a = 0 <;>
      simp [List.count_cons, List.countP_cons, h] <;> omega

/-- Each (possibly reverted) entry of a member individual's haplotype
occurs in the genotype of the reverted population. -/
theorem revert_entry_mem (pop : List Ind) (ind : Ind) (hind : ind ∈ pop) :
    (∀ a ∈ ind.hap1, (if isFixed pop a then 0 else a) ∈ genotype (revertFixedSites pop)) ∧
    (∀ b ∈ ind.hap2, (if isFixed pop b then 0 else b) ∈ genotype (revertFixedSites pop)) := by
  constructor <;> intro x hx <;> rw [mem_genotype] <;>
    refine ⟨{ind with hap1 := revertHap pop ind.hap1, hap2 := revertHap pop ind.hap2},
      List.mem_map.2 ⟨ind, hind, rfl⟩, ?_⟩
  · exact Or.inl (List.mem_map.2 ⟨x, hx, rfl⟩)
  · exact Or.inr (List.mem_map.2 ⟨x, hx, rfl⟩)

/-- After reverting fixed sites, the concatenated genotype of a
nonempty population with nonempty haplotypes cannot consist of a
single repeated non-wildtype value: such a value would have been
fixed, hence reverted. -/
theorem revert_no_uniform_mutant (pop : List Ind) (hpop : pop ≠ [])
    (hhap : ∀ ind ∈ pop, ind.hap1 ≠ [] ∧ ind.hap2 ≠ []) (v : ℕ) (hv : v ≠ 0)
    (hall : ∀ x ∈ genotype (revertFixedSites pop), x = v) : False := by
  have hmem : ∀ ind ∈ pop, v ∈ ind.hap1 ∧ v ∈ ind.hap2 ∧ ¬ isFixed pop v := by
    intro ind hind
    obtain ⟨hne1, hne2⟩ := hhap ind hind
    obtain ⟨a, ha⟩ := List.exists_mem_of_ne_nil _ hne1
    obtain ⟨b, hb⟩ := List.exists_mem_of_ne_nil _ hne2
    have e1 : (if isFixed pop a then 0 else a) = v :=
      hall _ ((revert_entry_mem pop ind hind).1 a ha)
    have e2 : (if isFixed pop b then 0 else b) = v :=
      hall _ ((revert_entry_mem pop ind hind).2 b hb)
    have ha' : a = v ∧ ¬ isFixed pop a := by
      by_cases hf : isFixed pop a
      · rw [if_pos hf] at e1
        exact absurd e1.symm hv
      · rw [if_neg hf] at e1
        exact ⟨e1, hf⟩
    have hb' : b = v := by
      by_cases hf : isFixed pop b
      · rw [if_pos hf] at e2
        exact absurd e2.symm hv
      · rwa [if_neg hf] at e2
    refine ⟨ha'.1 ▸ ha, hb' ▸ hb, ?_⟩
    exact ha'.1 ▸ ha'.2
  obtain ⟨ind0, hind0⟩ := List.exists_mem_of_ne_nil pop hpop
  exact (hmem ind0 hind0).2.2
    ⟨hv, fun ind hind => ⟨(hmem ind hind).1, (hmem ind hind).2.1⟩⟩

/-- Claim C4 — counterexample.  The claim says that with the
`revertFixedSites` configuration flag disabled no operation of the
generation loop or of the statistics collection reverts fixed sites.
But `NumSegregationSites.countSites` calls `revertFixedSites(pop)`
unconditionally (line 359), and the statistics operators run in both
configuration branches: on a population with the fixed site 5, a
sampling generation with identity mutation/selection/mating changes
the population state even though the flag is off. -/
theorem C4_counterexample :
    applyGeneration false true id id id [⟨[5, 0], [5, 0], true, false⟩] ≠
      [⟨[5, 0], [5, 0], true, false⟩] := by
  decide

/-- Claim C4 — amended.  With the flag disabled, a non-sampling
generation applies exactly mutation, selection and mating — no
reversion.  But at sampling generations the statistics collector
itself always reverts fixed sites, flag or no flag; with the flag
enabled reversion additionally runs as a dedicated pre-operator. -/
theorem C4_amended_revertGating :
    ∀ (mutate select mate : List Ind → List Ind) (pop : List Ind),
      applyGeneration false false mutate select mate pop =
        mate (select (mutate pop)) ∧
      applyGeneration false true mutate select mate pop =
        mate (revertFixedSites (select (mutate pop))) ∧
      applyGeneration true false mutate select mate pop =
        mate (select (mutate (revertFixedSites pop))) := by
  intro mutate select mate pop
  exact ⟨rfl, rfl, rfl⟩

/-- Claim C5 — confirmed.  For a nonempty population whose haplotypes
are nonempty lists, the collector computes
`avgSites = totalMutantCopies / populationSize` and
`avgFreq = totalMutantCopies / numSites / (2*populationSize)`, where
`totalMutantCopies` is the number of non-wildtype allele copies over
all haplotypes, and `avgFreq = 0` when `numSites = 0`.  (The source
guards on `numMutants == 0`; after the collector's own fixed-site
reversion the two guards agree: a post-reversion genotype of a
nonempty population cannot be a single repeated mutant value.) -/
theorem C5_collectorAverages (pop : List Ind) (hpop : pop ≠ [])
    (hhap : ∀ ind ∈ pop, ind.hap1 ≠ [] ∧ ind.hap2 ≠ []) :
    (countSitesPop pop).avgSites =
      (((genotype (countSitesPop pop).newPop).countP (fun a => a != 0) : ℕ) : ℚ) /
        (pop.length : ℚ) ∧
    ((countSitesPop pop).numSites = 0 → (countSitesPop pop).avgFreq = 0) ∧
    ((countSitesPop pop).numSites ≠ 0 →
      (countSitesPop pop).avgFreq =
        (((genotype (countSitesPop pop).newPop).countP (fun a => a != 0) : ℕ) : ℚ) /
          ((countSitesPop pop).numSites : ℚ) / (2 * (pop.length : ℚ))) := by
  have hnew : (countSitesPop pop).newPop = revertFixedSites pop := rfl
  set geno := genotype (revertFixedSites pop) with hgeno
  have hcnt : geno.length - geno.count 0 = geno.countP (fun a => a != 0) :=
    length_sub_count_eq_countP geno
  have hS : (countSitesPop pop).numSites = ((geno.toFinset.card : ℤ) - 1) := rfl
  have hA : (countSitesPop pop).avgSites =
      ((geno.length - geno.count 0 : ℕ) : ℚ) / (pop.length : ℚ) := rfl
  have hF : (countSitesPop pop).avgFreq =
      (if geno.length - geno.count 0 = 0 then (0 : ℚ)
        else ((geno.length - geno.count 0 : ℕ) : ℚ) / (((geno.toFinset.card : ℤ) - 1 : ℤ) : ℚ) /
          (2 * (pop.length : ℚ))) := rfl
  refine ⟨?_, ?_, ?_⟩
  · rw [hA, hnew, ← hgeno, hcnt]
  · intro h0
    rw [hS] at h0
    have hcard : geno.toFinset.card = 1 := by omega
    obtain ⟨v, hveq⟩ := Finset.card_eq_one.1 hcard
    have hallv : ∀ x ∈ geno, x = v := by
      intro x hx
      have : x ∈ geno.toFinset := List.mem_toFinset.2 hx
      rw [hveq] at this
      simpa using this
    have hv0 : v = 0 := by
      by_contra hv
      exact revert_no_uniform_mutant pop hpop hhap v hv hallv
    have hzero : geno.count 0 = geno.length := by
      rw [List.count_eq_length]
      intro b hb
      rw [hallv b hb, hv0]
    rw [hF, if_pos (by omega)]
  · intro h0
    by_cases hm : geno.length - geno.count 0 = 0
    · rw [hF, if_pos hm, hnew, ← hgeno, ← hcnt, hm]
      norm_num
    · rw [hF, if_neg hm, hnew, ← hgeno, ← hcnt, hS]

/-- Claim C5 — witness: a single individual carrying one mutant allele
at position 5; `avgSites = 1/1` and `avgFreq = 1/1/2`. -/
theorem C5_witness :
    (countSitesPop [⟨[5, 0], [0, 0], true, false⟩]).avgSites =
      (((genotype (countSitesPop [⟨[5, 0], [0, 0], true, false⟩]).newPop).countP
        (fun a => a != 0) : ℕ) : ℚ) /
        (([⟨[5, 0], [0, 0], true, false⟩] : List Ind).length : ℚ) :=
  (C5_collectorAverages [⟨[5, 0], [0, 0], true, false⟩] (by simp) (by decide)).1

/-- A permutation of a list of lists permutes its concatenation. -/
theorem flatten_perm_of_perm {α : Type} (l l' : List (List α)) (h : l.Perm l') :
    l.flatten.Perm l'.flatten := by
  induction h with
  | nil => exact List.Perm.refl _
  | cons x h ih =>
    simpa only [List.flatten_cons] using ih.append_left x
  | swap x y l =>
    simp only [List.flatten_cons, ← List.append_assoc]
    exact (List.perm_append_comm).append_right l.flatten
  | trans h1 h2 ih1 ih2 => exact ih1.trans ih2

/-- Fixedness of a site only depends on the population up to
permutation of its individuals. -/
theorem isFixed_perm (pop pop' : List Ind) (hp : pop.Perm pop') (a : ℕ) :
    isFixed pop a ↔ isFixed pop' a := by
  unfold isFixed
  constructor
  · rintro ⟨h1, h2⟩
    exact ⟨h1, fun ind hind => h2 ind (hp.mem_iff.2 hind)⟩
  · rintro ⟨h1, h2⟩
    exact ⟨h1, fun ind hind => h2 ind (hp.mem_iff.1 hind)⟩

/-- Claim C6 — counterexample.  The claim says `numSites` equals the
count of distinct non-wildtype positions for *every* population
state.  The code computes `len(set(geno)) - 1`, which assumes the
wildtype value 0 occurs in the concatenated genotype; on the state
with haplotypes `[5]` and `[7]` (every slot carrying a mutant, no site
fixed) the code yields `2 - 1 = 1` while there are 2 distinct
non-wildtype positions. -/
theorem C6_counterexample :
    (countSitesPop [⟨[5], [7], true, false⟩]).numSites ≠
      (distinctSites (countSitesPop [⟨[5], [7], true, false⟩]).newPop : ℤ) := by
  decide

/-- Claim C6 — amended.  Whenever the wildtype allele 0 occurs somewhere
in the post-reversion concatenated genotype (at least one unused
slot — as guaranteed by the zero-filled mutational-space
representation), `numSites` equals the number of distinct
non-wildtype positions across all individuals' haplotypes; and the
computed value is invariant under any permutation of the individuals
and under any permutation of the entries of the concatenated
genotype list. -/
theorem C6_amended_distinctSites :
    (∀ pop : List Ind, (0 : ℕ) ∈ genotype (countSitesPop pop).newPop →
      (countSitesPop pop).numSites = (distinctSites (countSitesPop pop).newPop : ℤ)) ∧
    (∀ pop pop' : List Ind, pop.Perm pop' →
      (countSitesPop pop).numSites = (countSitesPop pop').numSites) ∧
    (∀ g g' : List ℕ, g.Perm g' → numSitesOfGeno g = numSitesOfGeno g') := by
  refine ⟨?_, ?_, ?_⟩
  · intro pop h0
    have hnew : (countSitesPop pop).newPop = revertFixedSites pop := rfl
    set geno := genotype (revertFixedSites pop) with hgeno
    have hS : (countSitesPop pop).numSites = ((geno.toFinset.card : ℤ) - 1) := rfl
    have hD : distinctSites (countSitesPop pop).newPop = (geno.toFinset.erase 0).card := rfl
    have h0' : (0 : ℕ) ∈ geno.toFinset := List.mem_toFinset.2 (by rwa [hnew, ← hgeno] at h0)
    have hcard := Finset.card_erase_of_mem h0'
    have hpos : 0 < geno.toFinset.card := Finset.card_pos.2 ⟨0, h0'⟩
    rw [hS, hD]
    omega
  · intro pop pop' hp
    have hfun : (fun a : ℕ => if isFixed pop' a then 0 else a) =
        (fun a : ℕ => if isFixed pop a then 0 else a) := by
      funext a
      exact if_congr (isFixed_perm pop pop' hp a).symm rfl rfl
    have hrev : (revertFixedSites pop).Perm (revertFixedSites pop') := by
      rw [revertFixedSites, revertFixedSites]
      unfold revertHap
      rw [hfun]
      exact hp.map _
    have hgperm : (genotype (revertFixedSites pop)).Perm
        (genotype (revertFixedSites pop')) := by
      unfold genotype
      exact flatten_perm_of_perm _ _ (hrev.map _)
    have hfin := List.toFinset_eq_of_perm _ _ hgperm
    have hS : (countSitesPop pop).numSites =
        (((genotype (revertFixedSites pop)).toFinset.card : ℤ) - 1) := rfl
    have hS' : (countSitesPop pop').numSites =
        (((genotype (revertFixedSites pop')).toFinset.card : ℤ) - 1) := rfl
    rw [hS, hS', hfin]
  · intro g g' hper
    unfold numSitesOfGeno
    rw [List.toFinset_eq_of_perm _ _ hper]

/-- Claim C6 — witness for the first conjunct of
`C6_amended_distinctSites`: one individual with a single mutant and a
free slot; `numSites = 1` equals the distinct-site count. -/
theorem C6_witness :
    (countSitesPop [⟨[5, 0], [0, 0], true, false⟩]).numSites =
      (distinctSites (countSitesPop [⟨[5, 0], [0, 0], true, false⟩]).newPop : ℤ) :=
  C6_amended_distinctSites.1 [⟨[5, 0], [0, 0], true, false⟩] (by decide)

/-- Setting marker slots preserves the block length. -/
theorem foldl_set_length (f : ℕ → ℕ) (ms : List ℕ) (g : List ℕ) :
    (ms.foldl (fun acc m => acc.set (f m) 1) g).length = g.length := by
  induction ms generalizing g with
  | nil => rfl
  | cons m ms ih => rw [List.foldl_cons, ih, List.length_set]

/-- Value at slot `j` after setting slot `f m` to 1 for every `m` of
the list. -/
theorem foldl_set_getD (f : ℕ → ℕ) (ms : List ℕ) (g : List ℕ) (j : ℕ) (hj : j < g.length) :
    (ms.foldl (fun acc m => acc.set (f m) 1) g).getD j 0 =
      if ∃ m ∈ ms, f m = j then 1 else g.getD j 0 := by
  induction ms generalizing g with
  | nil => simp
  | cons m ms ih =>
    rw [List.foldl_cons, ih (g.set (f m) 1) (by rw [List.length_set]; exact hj)]
    by_cases hex : ∃ m' ∈ ms, f m' = j
    · obtain ⟨m', hm', he⟩ := hex
      rw [if_pos ⟨m', hm', he⟩, if_pos ⟨m', List.mem_cons_of_mem m hm', he⟩]
    · by_cases hm : f m = j
      · rw [if_neg hex, if_pos ⟨m, List.mem_cons_self m ms, hm⟩]
        subst hm
        rw [List.getD_eq_getD_get?, List.get?_eq_getElem?,
          List.getElem?_set_eq_of_lt 1 hj]
        rfl
      · rw [if_neg hex, if_neg (by
          rintro ⟨m', hm', he⟩
          rcases List.mem_cons.1 hm' with rfl | hmem
          · exact hm he
          · exact hex ⟨m', hmem, he⟩)]
        rw [List.getD_eq_getD_get?, List.get?_eq_getElem?,
          List.getElem?_set_ne hm, ← List.get?_eq_getElem?, ← List.getD_eq_getD_get?]

/-- A zero block reads 0 everywhere. -/
theorem getD_replicate_zero (n j : ℕ) : (List.replicate n (0 : ℕ)).getD j 0 = 0 := by
  rcases lt_or_le j n with h | h
  · rw [List.getD_eq_getElem _ _ (by simpa using h), List.getElem_replicate]
  · rw [List.getD_eq_default _ _ (by simpa using h)]

/-- In a compact haplotype, the prefix before the first 0 slot holds
exactly the nonzero entries. -/
theorem mem_takeWhile_ne_zero (hap : List ℕ) (hc : compactHap hap) (m : ℕ) :
    m ∈ hap.takeWhile (fun a => a != 0) ↔ m ∈ hap ∧ m ≠ 0 := by
  constructor
  · intro h
    have hmem : m ∈ hap := by
      have : m ∈ hap.takeWhile (fun a => a != 0) ++ hap.dropWhile (fun a => a != 0) :=
        List.mem_append_left _ h
      rwa [List.takeWhile_append_dropWhile] at this
    have hne : m ≠ 0 := by simpa using List.mem_takeWhile_imp h
    exact ⟨hmem, hne⟩
  · rintro ⟨hm, hm0⟩
    have hm' : m ∈ hap.takeWhile (fun a => a != 0) ++ hap.dropWhile (fun a => a != 0) := by
      rw [List.takeWhile_append_dropWhile]
      exact hm
    rcases List.mem_append.1 hm' with h | h
    · exact h
    · exact absurd (hc m h) hm0

/-- Structure of the marker list of `saveMarkerInfoToFile`: sorted
strictly ascending, duplicate-free, without the fake allele 0, and
holding exactly the distinct nonzero genotype values. -/
theorem allMutantsOf_spec (pop : List Ind) :
    (allMutantsOf pop).Sorted (· < ·) ∧ (allMutantsOf pop).Nodup ∧
    (0 : ℕ) ∉ allMutantsOf pop ∧
    (allMutantsOf pop).toFinset = (genotype pop).toFinset.erase 0 := by
  have hsorted : ((genotype pop).toFinset.sort (· ≤ ·)).Sorted (· < ·) :=
    Finset.sort_sorted_lt _
  have hnd : ((genotype pop).toFinset.sort (· ≤ ·)).Nodup :=
    Finset.sort_nodup _ _
  have hfin : ((genotype pop).toFinset.sort (· ≤ ·)).toFinset = (genotype pop).toFinset :=
    Finset.sort_toFinset _ _
  unfold allMutantsOf
  rcases hL : (genotype pop).toFinset.sort (· ≤ ·) with - | ⟨a, rest⟩
  · rw [hL] at hfin
    simp only [List.Sorted, List.toFinset_nil] at hfin ⊢
    refine ⟨List.sorted_nil, List.nodup_nil, by simp, ?_⟩
    rw [← hfin]
    simp
  · rw [hL] at hsorted hnd hfin
    rcases Nat.eq_zero_or_pos a with rfl | hapos
    · have hnotin : (0 : ℕ) ∉ rest := (List.nodup_cons.1 hnd).1
      refine ⟨hsorted.of_cons, (List.nodup_cons.1 hnd).2, hnotin, ?_⟩
      rw [← hfin, List.toFinset_cons, Finset.erase_insert (by simpa using hnotin)]
    · have hmatch : (match (0 : ℕ) :: rest with
        | 0 :: rest => rest
        | l => l) = rest := rfl
      have hne : a ≠ 0 := by omega
      have h0 : (0 : ℕ) ∉ a :: rest := by
        intro h0
        rcases List.mem_cons.1 h0 with h | h
        · exact hne h.symm
        · have := List.rel_of_sorted_cons hsorted 0 h
          omega
      constructor
      · cases a with
        | zero => omega
        | succ n => exact hsorted
      constructor
      · cases a with
        | zero => omega
        | succ n => exact hnd
      constructor
      · cases a with
        | zero => omega
        | succ n => exact h0
      · cases a with
        | zero => omega
        | succ n =>
          rw [← hfin, Finset.erase_eq_of_not_mem (by simpa using h0)]
          rfl

/-- The genotype bit block: length `2m`, and slot `2j` (resp. `2j+1`)
is 1 exactly when marker `j` occurs in the part of the first (resp.
second) haplotype before the first 0 slot. -/
theorem genoBits_spec (markers : List ℕ) (ind : Ind) (hnd : markers.Nodup)
    (hsub1 : ∀ m ∈ ind.hap1.takeWhile (fun a => a != 0), m ∈ markers)
    (hsub2 : ∀ m ∈ ind.hap2.takeWhile (fun a => a != 0), m ∈ markers) :
    (genoBits markers ind).length = 2 * markers.length ∧
    ∀ j, j < markers.length →
      ((genoBits markers ind).getD (2 * j) 0 =
        if markers.getD j 0 ∈ ind.hap1.takeWhile (fun a => a != 0) then 1 else 0) ∧
      ((genoBits markers ind).getD (2 * j + 1) 0 =
        if markers.getD j 0 ∈ ind.hap2.takeWhile (fun a => a != 0) then 1 else 0) := by
  have hlen0 : (List.replicate (2 * markers.length) (0 : ℕ)).length = 2 * markers.length :=
    List.length_replicate _ _
  have hlen1 : ((ind.hap1.takeWhile (fun a => a != 0)).foldl
      (fun g m => g.set (2 * markers.indexOf m) 1)
      (List.replicate (2 * markers.length) 0)).length = 2 * markers.length := by
    rw [foldl_set_length, hlen0]
  have hlen2 : (genoBits markers ind).length = 2 * markers.length := by
    unfold genoBits
    rw [foldl_set_length, hlen1]
  refine ⟨hlen2, ?_⟩
  intro j hj
  have hcond1 : ∀ hap : List ℕ, (∀ m ∈ hap, m ∈ markers) →
      ((∃ m ∈ hap, 2 * markers.indexOf m = 2 * j) ↔ markers.getD j 0 ∈ hap) := by
    intro hap hsub
    constructor
    · rintro ⟨m, hm, he⟩
      have hmm : m ∈ markers := hsub m hm
      have hidx : markers.indexOf m < markers.length := List.indexOf_lt_length.2 hmm
      have hje : markers.indexOf m = j := by omega
      have hval : markers.getD j 0 = m := by
        rw [List.getD_eq_getElem _ _ hj]
        subst hje
        exact List.getElem_indexOf hj
      rw [hval]
      exact hm
    · intro hmem
      refine ⟨markers.getD j 0, hmem, ?_⟩
      have hmm : markers.getD j 0 ∈ markers := hsub _ hmem
      have hidx : markers.indexOf (markers.getD j 0) < markers.length :=
        List.indexOf_lt_length.2 hmm
      have h1 := List.getElem_indexOf hidx
      have h2 : markers.getD j 0 = markers[j] := List.getD_eq_getElem _ _ hj
      have h3 : markers.indexOf (markers.getD j 0) = j :=
        (List.Nodup.getElem_inj_iff hnd).1 (by rw [h1, h2])
      omega
  refine ⟨?_, ?_⟩
  · unfold genoBits
    rw [foldl_set_getD _ _ _ _ (by rw [hlen1]; omega),
      if_neg (by rintro ⟨m, hm, he⟩; omega),
      foldl_set_getD _ _ _ _ (by rw [hlen0]; omega),
      getD_replicate_zero]
    by_cases hc : markers.getD j 0 ∈ ind.hap1.takeWhile (fun a => a != 0)
    · rw [if_pos ((hcond1 _ hsub1).2 hc), if_pos hc]
    · rw [if_neg (fun hex => hc ((hcond1 _ hsub1).1 hex)), if_neg hc]
  · unfold genoBits
    have hcond2 : (∃ m ∈ ind.hap2.takeWhile (fun a => a != 0),
        2 * markers.indexOf m + 1 = 2 * j + 1) ↔
        markers.getD j 0 ∈ ind.hap2.takeWhile (fun a => a != 0) := by
      rw [← hcond1 _ hsub2]
      constructor <;> rintro ⟨m, hm, he⟩ <;> exact ⟨m, hm, by omega⟩
    rw [foldl_set_getD _ _ _ _ (by rw [hlen1]; omega)]
    by_cases hc : markers.getD j 0 ∈ ind.hap2.takeWhile (fun a => a != 0)
    · rw [if_pos (hcond2.2 hc), if_pos hc]
    · rw [if_neg (fun hex => hc (hcond2.1 hex)), if_neg hc,
        foldl_set_getD _ _ _ _ (by rw [hlen0]; omega),
        if_neg (by rintro ⟨m, hm, he⟩; omega), getD_replicate_zero]

/-- The marker list is the unique strictly sorted duplicate-free list
holding the distinct nonzero genotype values. -/
theorem allMutantsOf_eq_of (pop : List Ind) (l : List ℕ) (hsor : l.Sorted (· < ·))
    (hnd : l.Nodup) (hfin : l.toFinset = (genotype pop).toFinset.erase 0) :
    allMutantsOf pop = l := by
  obtain ⟨hs, hn, h0, hf⟩ := allMutantsOf_spec pop
  haveI : IsAntisymm ℕ (· < ·) := ⟨fun a b h1 h2 => absurd h2 (Nat.lt_asymm h1)⟩
  have hperm := List.perm_of_nodup_nodup_toFinset_eq hn hnd (hf.trans hfin.symm)
  exact List.eq_of_perm_of_sorted hperm hs hsor

/-- Claim C8 — counterexample.  The claim says marker columns appear in
first-observed mutation position ordering.  `saveMarkerInfoToFile`
sorts the positions (`mutants.sort()`), so on a population whose
traversal meets position 9 before position 5 the written rows differ
from the rows the claimed ordering would produce. -/
theorem C8_counterexample :
    savedPedRows [⟨[9, 0], [0, 0], true, false⟩, ⟨[5, 0], [0, 0], false, false⟩] ≠
      ([⟨[9, 0], [0, 0], true, false⟩, ⟨[5, 0], [0, 0], false, false⟩] : List Ind).mapIdx
        (fun cnt ind => pedLine cnt
          (firstObservedMutants
            [⟨[9, 0], [0, 0], true, false⟩, ⟨[5, 0], [0, 0], false, false⟩]) ind) := by
  have hA : allMutantsOf [⟨[9, 0], [0, 0], true, false⟩, ⟨[5, 0], [0, 0], false, false⟩] =
      [5, 9] :=
    allMutantsOf_eq_of _ [5, 9] (by norm_num) (by norm_num) (by decide)
  unfold savedPedRows
  rw [hA]
  decide

/-- Claim C8 — amended.  For a population whose haplotypes respect the
mutational-space invariant (zeros only pad the tail), every `.ped`
row is `<id> 0 0 0 <sexCode:1|2> <affectedCode:1|2>` followed by the
genotype bits: two adjacent 0/1 columns per marker, slot `2j` (resp.
`2j+1`) set exactly when the first (resp. second) haplotype carries
marker `j` — and the markers appear in ascending mutation-position
order (the sorted distinct nonzero positions), not in first-observed
order. -/
theorem C8_amended_pedRows (pop : List Ind)
    (hc : ∀ ind ∈ pop, compactHap ind.hap1 ∧ compactHap ind.hap2) :
    (allMutantsOf pop).Sorted (· < ·) ∧
    (allMutantsOf pop).toFinset = (genotype pop).toFinset.erase 0 ∧
    savedPedRows pop = pop.mapIdx (fun cnt ind =>
      [cnt + 1, 0, 0, 0, sexCode ind, affCode ind] ++ genoBits (allMutantsOf pop) ind) ∧
    (∀ ind : Ind, (sexCode ind = 1 ∨ sexCode ind = 2) ∧
      (affCode ind = 1 ∨ affCode ind = 2)) ∧
    (∀ ind ∈ pop,
      (genoBits (allMutantsOf pop) ind).length = 2 * (allMutantsOf pop).length ∧
      ∀ j, j < (allMutantsOf pop).length →
        ((genoBits (allMutantsOf pop) ind).getD (2 * j) 0 =
          if (allMutantsOf pop).getD j 0 ∈ ind.hap1 then 1 else 0) ∧
        ((genoBits (allMutantsOf pop) ind).getD (2 * j + 1) 0 =
          if (allMutantsOf pop).getD j 0 ∈ ind.hap2 then 1 else 0)) := by
  obtain ⟨hsorted, hnd, h0, hfin⟩ := allMutantsOf_spec pop
  have hmarker_sub : ∀ ind ∈ pop, ∀ (m : ℕ), m ∈ ind.hap1 ∨ m ∈ ind.hap2 → m ≠ 0 →
      m ∈ allMutantsOf pop := by
    intro ind hind m hm hm0
    have : m ∈ (genotype pop).toFinset.erase 0 :=
      Finset.mem_erase.2 ⟨hm0, List.mem_toFinset.2 ((mem_genotype pop m).2 ⟨ind, hind, hm⟩)⟩
    rw [← hfin] at this
    exact List.mem_toFinset.1 this
  refine ⟨hsorted, hfin, rfl, ?_, ?_⟩
  · intro ind
    constructor
    · unfold sexCode
      by_cases h : ind.male <;> simp [h]
    · unfold affCode
      by_cases h : ind.affected <;> simp [h]
  · intro ind hind
    have hsub1 : ∀ m ∈ ind.hap1.takeWhile (fun a => a != 0), m ∈ allMutantsOf pop := by
      intro m hm
      obtain ⟨hmem, hm0⟩ := (mem_takeWhile_ne_zero ind.hap1 (hc ind hind).1 m).1 hm
      exact hmarker_sub ind hind m (Or.inl hmem) hm0
    have hsub2 : ∀ m ∈ ind.hap2.takeWhile (fun a => a != 0), m ∈ allMutantsOf pop := by
      intro m hm
      obtain ⟨hmem, hm0⟩ := (mem_takeWhile_ne_zero ind.hap2 (hc ind hind).2 m).1 hm
      exact hmarker_sub ind hind m (Or.inr hmem) hm0
    obtain ⟨hlen, hbits⟩ := genoBits_spec (allMutantsOf pop) ind hnd hsub1 hsub2
    refine ⟨hlen, ?_⟩
    intro j hj
    have hj0 : (allMutantsOf pop).getD j 0 ≠ 0 := by
      intro h
      apply h0
      rw [← h]
      rw [List.getD_eq_getElem _ _ hj]
      exact List.getElem_mem hj
    have hmem1 : ((allMutantsOf pop).getD j 0 ∈ ind.hap1.takeWhile (fun a => a != 0)) ↔
        ((allMutantsOf pop).getD j 0 ∈ ind.hap1) := by
      rw [mem_takeWhile_ne_zero ind.hap1 (hc ind hind).1]
      exact ⟨fun h => h.1, fun h => ⟨h, hj0⟩⟩
    have hmem2 : ((allMutantsOf pop).getD j 0 ∈ ind.hap2.takeWhile (fun a => a != 0)) ↔
        ((allMutantsOf pop).getD j 0 ∈ ind.hap2) := by
      rw [mem_takeWhile_ne_zero ind.hap2 (hc ind hind).2]
      exact ⟨fun h => h.1, fun h => ⟨h, hj0⟩⟩
    obtain ⟨hb1, hb2⟩ := hbits j hj
    constructor
    · rw [hb1]
      by_cases h : (allMutantsOf pop).getD j 0 ∈ ind.hap1
      · rw [if_pos (hmem1.2 h), if_pos h]
      · rw [if_neg (fun hx => h (hmem1.1 hx)), if_neg h]
    · rw [hb2]
      by_cases h : (allMutantsOf pop).getD j 0 ∈ ind.hap2
      · rw [if_pos (hmem2.2 h), if_pos h]
      · rw [if_neg (fun hx => h (hmem2.1 hx)), if_neg h]

/-- Claim C8 — witness: the amended theorem applied to the two-individual
population of the counterexample, whose haplotypes are compact. -/
theorem C8_witness :
    (allMutantsOf [⟨[9, 0], [0, 0], true, false⟩, ⟨[5, 0], [0, 0], false, false⟩]).Sorted
      (· < ·) :=
  (C8_amended_pedRows [⟨[9, 0], [0, 0], true, false⟩, ⟨[5, 0], [0, 0], false, false⟩]
    (by decide)).1

theorem hapsOf_cons (g : List ℕ) (gs : List (List ℕ)) (m : ℕ) :
    hapsOf (g :: gs) m = hapRow g m 0 :: hapRow g m 1 :: hapsOf gs m := rfl

theorem hapsOf_length (genos : List (List ℕ)) (m : ℕ) :
    (hapsOf genos m).length = 2 * genos.length := by
  induction genos with
  | nil => rfl
  | cons g gs ih =>
    rw [hapsOf_cons, List.length_cons, List.length_cons, ih, List.length_cons]
    omega

theorem hapRow_length (g : List ℕ) (m off : ℕ) : (hapRow g m off).length = m := by
  simp [hapRow]

theorem mem_hapsOf_length (genos : List (List ℕ)) (m : ℕ) :
    ∀ r ∈ hapsOf genos m, r.length = m := by
  induction genos with
  | nil => simp [hapsOf]
  | cons g gs ih =>
    intro r hr
    rw [hapsOf_cons] at hr
    rcases List.mem_cons.1 hr with rfl | hr
    · exact hapRow_length g m 0
    rcases List.mem_cons.1 hr with rfl | hr
    · exact hapRow_length g m 1
    · exact ih r hr

theorem hapsOf_getD (genos : List (List ℕ)) (m : ℕ) :
    ∀ i, i < genos.length →
      (hapsOf genos m).getD (2 * i) [] = hapRow (genos.getD i []) m 0 ∧
      (hapsOf genos m).getD (2 * i + 1) [] = hapRow (genos.getD i []) m 1 := by
  induction genos with
  | nil => simp
  | cons g gs ih =>
    intro i hi
    cases i with
    | zero => exact ⟨rfl, rfl⟩
    | succ j =>
      have hrec := ih j (by simpa using hi)
      have h2 : 2 * (j + 1) = 2 * j + 1 + 1 := by ring
      rw [hapsOf_cons, h2]
      simp only [List.getD_cons_succ]
      exact hrec

theorem hapRow_getD (g : List ℕ) (m off j : ℕ) (hj : j < m) :
    (hapRow g m off).getD j 0 = g.getD (2 * j + off) 0 := by
  rw [hapRow, List.getD_eq_getElem _ _ (by simpa using hj), List.getElem_map,
    List.getElem_range]

theorem swapRare_length (vaf : List ℚ) (row : List ℕ) :
    (swapRare vaf row).length = row.length := by
  simp [swapRare]

theorem swapRare_getD (vaf : List ℚ) (row : List ℕ) (j : ℕ) (hj : j < row.length) :
    (swapRare vaf row).getD j 0 = swapEntry (vaf.getD j 0) (row.getD j 0) := by
  rw [swapRare, List.getD_eq_getElem _ _ (by simpa using hj), List.getElem_map,
    List.getElem_range]
  rfl

/-- Claim C10 — counterexample.  The claim is stated for *every* list of
genotype rows, including the empty one, where it predicts `2*0 = 0`
haplotype rows; the code evaluates `len(genos[0])` and raises an
`IndexError` (modelled by `none`) instead. -/
theorem C10_counterexample :
    convertGenosToListOf2Haps [] [] ≠ some [] := by
  decide

/-- Claim C10 — amended.  For every *nonempty* list of genotype rows,
each of even length `2m`, and every variant-allele-frequency list of
length `m`, the conversion succeeds and returns `2n` haplotype rows of
length `m` (`n` the number of genotype rows), where row `2i` holds the
even-indexed entries of genotype row `i`, row `2i+1` the odd-indexed
entries, and exactly the columns whose variant allele frequency
exceeds `0.5` have `0` and `1` swapped, all other entries being
unchanged. -/
theorem C10_amended_convert (genos : List (List ℕ)) (vaf : List ℚ) (m : ℕ)
    (hne : genos ≠ []) (hlen : ∀ g ∈ genos, g.length = 2 * m) (hv : vaf.length = m) :
    convertGenosToListOf2Haps genos vaf = some ((hapsOf genos m).map (swapRare vaf)) ∧
    ((hapsOf genos m).map (swapRare vaf)).length = 2 * genos.length ∧
    (∀ row ∈ (hapsOf genos m).map (swapRare vaf), row.length = m) ∧
    (∀ i, i < genos.length → ∀ j, j < m →
      (((hapsOf genos m).map (swapRare vaf)).getD (2 * i) []).getD j 0 =
        swapEntry (vaf.getD j 0) ((genos.getD i []).getD (2 * j) 0) ∧
      (((hapsOf genos m).map (swapRare vaf)).getD (2 * i + 1) []).getD j 0 =
        swapEntry (vaf.getD j 0) ((genos.getD i []).getD (2 * j + 1) 0)) := by
  refine ⟨?_, ?_, ?_, ?_⟩
  · cases genos with
    | nil => exact absurd rfl hne
    | cons g0 rest =>
      have h0 : g0.length = 2 * m := hlen g0 (List.mem_cons_self g0 rest)
      have hm : g0.length / 2 = m := by omega
      rw [convertGenosToListOf2Haps, hm]
  · rw [List.length_map, hapsOf_length]
  · intro row hrow
    obtain ⟨r, hr, rfl⟩ := List.mem_map.1 hrow
    rw [swapRare_length, mem_hapsOf_length genos m r hr]
  · intro i hi j hj
    have h2i : 2 * i < (hapsOf genos m).length := by rw [hapsOf_length]; omega
    have h2i1 : 2 * i + 1 < (hapsOf genos m).length := by rw [hapsOf_length]; omega
    obtain ⟨he, ho⟩ := hapsOf_getD genos m i hi
    have hmape : ((hapsOf genos m).map (swapRare vaf)).getD (2 * i) [] =
        swapRare vaf ((hapsOf genos m).getD (2 * i) []) := by
      rw [List.getD_eq_getElem _ _ (by simpa using h2i), List.getElem_map,
        ← List.getD_eq_getElem _ [] h2i]
    have hmapo : ((hapsOf genos m).map (swapRare vaf)).getD (2 * i + 1) [] =
        swapRare vaf ((hapsOf genos m).getD (2 * i + 1) []) := by
      rw [List.getD_eq_getElem _ _ (by simpa using h2i1), List.getElem_map,
        ← List.getD_eq_getElem _ [] h2i1]
    constructor
    · rw [hmape, he, swapRare_getD _ _ _ (by rw [hapRow_length]; exact hj),
        hapRow_getD _ _ _ _ hj, Nat.add_zero]
    · rw [hmapo, ho, swapRare_getD _ _ _ (by rw [hapRow_length]; exact hj),
        hapRow_getD _ _ _ _ hj]

/-- Claim C10 — witness: one genotype row `[0,1,1,0]` (`m = 2`) with
`vaf = [1/4, 3/4]`; the conversion succeeds, swapping only the second
column. -/
theorem C10_witness :
    convertGenosToListOf2Haps [[0, 1, 1, 0]] [1/4, 3/4] =
      some ((hapsOf [[0, 1, 1, 0]] 2).map (swapRare [1/4, 3/4])) :=
  (C10_amended_convert [[0, 1, 1, 0]] [1/4, 3/4] 2 (by simp)
    (by intro g hg; rw [List.mem_singleton.1 hg]; rfl) rfl).1
